import Mathlib

/-!
Verification development for the pet_detector detection pipeline.

The JavaScript sources (src/script.js and src/app.js) decode the raw output
tensor of an object-detection network into candidate boxes and filter them by
greedy non-maximum suppression (NMS).  This file gives a shallow embedding of
that pipeline over exact rationals:

* numbers are modelled by `ℚ`;
* the one place where JavaScript arithmetic can produce `NaN` is the IoU
  division `intersection / union` when `union` is `0` (it is proved below that
  a zero denominator forces a zero numerator, so `0 / 0` is the only
  degenerate case and `Infinity` never arises); the IoU functions therefore
  return `Option ℚ`, with `none` standing for the JavaScript `NaN`, and every
  comparison against `none` evaluates to `false` exactly as a JavaScript
  comparison against `NaN` does;
* `Array.prototype.sort` with the comparator `(a, b) => b.score - a.score` is
  a stable descending sort on scores and is modelled by
  `List.insertionSort` with the relation `b.score ≤ a.score`;
* the in-place mutation that `sort` / `shift` / `splice` perform on the
  caller's array is modelled by explicit `...CallerArrayAfter` functions
  giving the contents of the caller's array when the call returns.
-/

/-- Model-input width, the constant `modelWidth = 640` of both sources. -/
def modelWidth : ℚ := 640

/-- Model-input height, the constant `modelHeight = 640` of both sources. -/
def modelHeight : ℚ := 640

/-- The best-class search shared by script.js (lines 174-181, via `forEach`)
and app.js (lines 156-164, via a `for` loop): running maximum initialised to
`0`, best index initialised to `-1`, updated only on a strictly greater
score.  `idx` is the index of the head of the remaining list. -/
def bestClassAux : List ℚ → ℕ → ℤ → ℚ → ℤ × ℚ
  | [], _, bestIdx, maxScore => (bestIdx, maxScore)
  | s :: rest, idx, bestIdx, maxScore =>
    if s > maxScore then bestClassAux rest (idx + 1) (idx : ℤ) s
    else bestClassAux rest (idx + 1) bestIdx maxScore

/-- `bestClass scores` returns `(bestClassIndex, maxScore)` as computed by the
source's argmax loops (initial accumulator `(-1, 0)`). -/
def bestClass (scores : List ℚ) : ℤ × ℚ :=
  bestClassAux scores 0 (-1) 0

/-- The `transpose(data, C, N)` helper of app.js (lines 210-219);
script.js (lines 160-167) inlines the identical double loop.
`transposed[i][j] = data[j * N + i]`.  An out-of-range read (JavaScript
`undefined`) is modelled by the default `0`; every theorem below that
evaluates decoded values does so on in-range data only. -/
def transpose (data : List ℚ) (C N : ℕ) : List (List ℚ) :=
  (List.range N).map fun i => (List.range C).map fun j => data.getD (j * N + i) 0

/-- Spec-side encoding (not from the source): the flat channel-major
(`[1, C, N]`) buffer whose logical per-detection rows are `rows`; flat index
`j * N + i` holds `rows[i][j]`.  Used to state claim C6. -/
def channelMajorFlatten (rows : List (List ℚ)) (C N : ℕ) : List ℚ :=
  (List.range (C * N)).map fun k => (rows.getD (k % N) []).getD (k / N) 0

/-- The greedy NMS loop shared by script.js `nonMaxSuppression`
(lines 228-246) and app.js `nms` (lines 237-249): pop the head of the sorted
remaining list into the result, then drop every remaining box the popped box
suppresses.  script.js performs the drop with a backward `splice` loop and
app.js with `slice(1).filter(...)`; both are the order-preserving `filter`
below.  `s cur b = true` means `cur` suppresses (removes) `b`. -/
def nmsLoop {α : Type} (s : α → α → Bool) : List α → List α
  | [] => []
  | cur :: rest => cur :: nmsLoop s (rest.filter fun b => !(s cur b))
  termination_by l => l.length
  decreasing_by simp only [List.length_cons]; exact Nat.lt_succ_of_le (List.length_filter_le _ _)

namespace Script

/-- The COCO class-name table of script.js (lines 15-25). -/
def classNames : List String :=
  ["person", "bicycle", "car", "motorcycle", "airplane", "bus", "train", "truck", "boat",
   "traffic light", "fire hydrant", "stop sign", "parking meter", "bench", "bird", "cat",
   "dog", "horse", "sheep", "cow", "elephant", "bear", "zebra", "giraffe", "backpack",
   "umbrella", "handbag", "tie", "suitcase", "frisbee", "skis", "snowboard", "sports ball",
   "kite", "baseball bat", "baseball glove", "skateboard", "surfboard", "tennis racket",
   "bottle", "wine glass", "cup", "fork", "knife", "spoon", "bowl", "banana", "apple",
   "sandwich", "orange", "broccoli", "carrot", "hot dog", "pizza", "donut", "cake", "chair",
   "couch", "potted plant", "bed", "dining table", "toilet", "tv", "laptop", "mouse",
   "remote", "keyboard", "cell phone", "microwave", "oven", "toaster", "sink",
   "refrigerator", "book", "clock", "vase", "scissors", "teddy bear", "hair drier",
   "toothbrush"]

/-- The module constant `confidenceThreshold = 0.50` of script.js (line 11). -/
def confidenceThreshold : ℚ := 1 / 2

/-- A detection record of script.js: `{ box: [x, y, width, height], label, score }`
with the box in top-left + width/height form.  `label` is `Option String`
because `classNames[i]` is `undefined` (modelled `none`) for an out-of-range
index. -/
structure SBox where
  x : ℚ
  y : ℚ
  w : ℚ
  h : ℚ
  label : Option String
  score : ℚ
deriving DecidableEq, Repr

/-- JavaScript `classNames[i]` for an integer index. -/
def classNameAt (i : ℤ) : Option String :=
  if i < 0 then none else classNames[i.toNat]?

/-- The clamped intersection area of `intersectionOverUnion`
(script.js lines 255-260). -/
def interArea (box1 box2 : SBox) : ℚ :=
  max 0 (min (box1.x + box1.w) (box2.x + box2.w) - max box1.x box2.x) *
  max 0 (min (box1.y + box1.h) (box2.y + box2.h) - max box1.y box2.y)

/-- The union area `box1Area + box2Area - interArea` (script.js lines 261-264). -/
def unionArea (box1 box2 : SBox) : ℚ :=
  box1.w * box1.h + box2.w * box2.h - interArea box1 box2

/-- `intersectionOverUnion` of script.js (lines 251-266):
`interArea / unionArea`.  When the denominator is `0` the JavaScript division
yields `NaN` (the numerator is also `0` then, see `interArea_eq_zero_of_unionArea_eq_zero`),
modelled here by `none`. -/
def intersectionOverUnion (box1 box2 : SBox) : Option ℚ :=
  if unionArea box1 box2 = 0 then none
  else some (interArea box1 box2 / unionArea box1 box2)

/-- One suppression test of script.js `nonMaxSuppression` (lines 236-242):
a candidate of a different label is skipped (`continue`), otherwise it is
removed exactly when `iou > iouThreshold`.  A `NaN` IoU (`none`) compares
`false`, as in JavaScript. -/
def sBoxSuppress (iouThreshold : ℚ) (currentBox b : SBox) : Bool :=
  if b.label = currentBox.label then
    match intersectionOverUnion currentBox b with
    | none => false
    | some q => decide (q > iouThreshold)
  else false

/-- The comparator `(a, b) => b.score - a.score` of script.js line 229 as a
relation: `a` may come before `b` iff `b.score ≤ a.score`. -/
def scoreDescS (a b : SBox) : Prop := b.score ≤ a.score

instance : DecidableRel scoreDescS :=
  fun a b => inferInstanceAs (Decidable (b.score ≤ a.score))

instance : IsTotal SBox scoreDescS := ⟨fun a b => le_total b.score a.score⟩

instance : IsTrans SBox scoreDescS := ⟨fun _ _ _ hab hbc => le_trans hbc hab⟩

/-- `nonMaxSuppression(boxes, iouThreshold)` of script.js (lines 228-246):
stable descending sort on score, then the greedy loop. -/
def nonMaxSuppression (boxes : List SBox) (iouThreshold : ℚ) : List SBox :=
  nmsLoop (sBoxSuppress iouThreshold) (List.insertionSort scoreDescS boxes)

/-- The contents of the caller's `boxes` array after
`nonMaxSuppression(boxes, t)` returns: `boxes.sort(...)` sorts the caller's
array in place and `sortedBoxes` aliases it, so the `while`/`shift`/`splice`
loop runs until that very array is empty. -/
def nonMaxSuppressionCallerArrayAfter (boxes : List SBox) : List SBox := []

/-- The per-candidate body of `postprocessResults` (script.js lines 170-195):
slice out the 80 class scores (`detection.slice(4, 4 + numClasses)`), run the
best-class search, keep the candidate iff `maxScore > confidenceThreshold`,
and build the box rescaled by `canvas.width / modelWidth` and
`canvas.height / modelHeight`.  `confT` is the module constant
`confidenceThreshold`, `canvasW`/`canvasH` the canvas globals. -/
def decodeRow (confT canvasW canvasH : ℚ) (row : List ℚ) : Option SBox :=
  let classScores := (row.drop 4).take classNames.length
  let best := bestClass classScores
  if best.2 > confT then
    some { x := (row.getD 0 0 - row.getD 2 0 / 2) * (canvasW / modelWidth)
           y := (row.getD 1 0 - row.getD 3 0 / 2) * (canvasH / modelHeight)
           w := row.getD 2 0 * (canvasW / modelWidth)
           h := row.getD 3 0 * (canvasH / modelHeight)
           label := classNameAt best.1
           score := best.2 }
  else none

/-- `postprocessResults(outputTensor)` of script.js (lines 151-199): read
`numDetections = dims[2]` and `detectionSize = dims[1]` (the `[1, C, N]`
layout is assumed unconditionally), transpose, decode each row, and finish
with `nonMaxSuppression(boxes, 0.5)`.  A shape with fewer than three entries
makes the JavaScript loop bound `undefined`, so the loop body never runs;
this is modelled by `dims.getD _ 0 = 0`. -/
def postprocessResults (confT canvasW canvasH : ℚ) (dims : List ℕ) (data : List ℚ) :
    List SBox :=
  let numDetections := dims.getD 2 0
  let detectionSize := dims.getD 1 0
  let transposedData := transpose data detectionSize numDetections
  let boxes := transposedData.filterMap (decodeRow confT canvasW canvasH)
  nonMaxSuppression boxes (1 / 2)

end Script

namespace App

/-- A detection record of app.js: `{ x1, y1, x2, y2, score, classId }` with the
box in corner form. -/
structure ABox where
  x1 : ℚ
  y1 : ℚ
  x2 : ℚ
  y2 : ℚ
  score : ℚ
  classId : ℤ
deriving DecidableEq, Repr

/-- `iou(box1, box2)` of app.js (lines 222-234), corner-form boxes.  As for
script.js, a zero union makes the JavaScript division `0 / 0 = NaN`,
modelled by `none`. -/
def iou (box1 box2 : ABox) : Option ℚ :=
  let x1 := max box1.x1 box2.x1
  let y1 := max box1.y1 box2.y1
  let x2 := min box1.x2 box2.x2
  let y2 := min box1.y2 box2.y2
  let intersection := max 0 (x2 - x1) * max 0 (y2 - y1)
  let area1 := (box1.x2 - box1.x1) * (box1.y2 - box1.y1)
  let area2 := (box2.x2 - box2.x1) * (box2.y2 - box2.y1)
  let union := area1 + area2 - intersection
  if union = 0 then none else some (intersection / union)

/-- The filter predicate of app.js `nms` (line 245): a remaining box is kept
iff `iou(popped, box) < iouThreshold`.  A `NaN` IoU compares `false`, so the
box is removed. -/
def aBoxKeep (iouThreshold : ℚ) (currentBox b : ABox) : Bool :=
  match iou currentBox b with
  | none => false
  | some q => decide (q < iouThreshold)

/-- The comparator `(a, b) => b.score - a.score` of app.js line 240 as a
relation. -/
def scoreDescA (a b : ABox) : Prop := b.score ≤ a.score

instance : DecidableRel scoreDescA :=
  fun a b => inferInstanceAs (Decidable (b.score ≤ a.score))

instance : IsTotal ABox scoreDescA := ⟨fun a b => le_total b.score a.score⟩

instance : IsTrans ABox scoreDescA := ⟨fun _ _ _ hab hbc => le_trans hbc hab⟩

/-- `nms(boxes, iouThreshold)` of app.js (lines 237-249): in-place descending
sort, then pop the head and keep only remaining boxes with
`iou < iouThreshold` (i.e. remove iff not `iou < iouThreshold`). -/
def nms (boxes : List ABox) (iouThreshold : ℚ) : List ABox :=
  nmsLoop (fun currentBox b => !(aBoxKeep iouThreshold currentBox b))
    (List.insertionSort scoreDescA boxes)

/-- The contents of the caller's `boxes` array after `nms(boxes, t)` returns:
`boxes.sort(...)` reorders the caller's array in place; the later
`boxes = boxes.slice(1).filter(...)` only rebinds the local variable. -/
def nmsCallerArrayAfter (boxes : List ABox) : List ABox :=
  List.insertionSort scoreDescA boxes

/-- The per-candidate body of `processAndDraw` (app.js lines 152-181):
destructure `[x_center, y_center, width, height, ...classProbs]`, run the
best-class search, keep the candidate iff `maxProb > 0.5` (the literal
threshold of line 167), and build the corner-form box scaled by
`originalWidth / modelWidth` and `originalHeight / modelHeight`. -/
def decodeRow (originalWidth originalHeight : ℚ) (row : List ℚ) : Option ABox :=
  let classProbs := row.drop 4
  let best := bestClass classProbs
  if best.2 > 1 / 2 then
    let scaleX := originalWidth / modelWidth
    let scaleY := originalHeight / modelHeight
    some { x1 := (row.getD 0 0 - row.getD 2 0 / 2) * scaleX
           y1 := (row.getD 1 0 - row.getD 3 0 / 2) * scaleY
           x2 := (row.getD 0 0 + row.getD 2 0 / 2) * scaleX
           y2 := (row.getD 1 0 + row.getD 3 0 / 2) * scaleY
           score := best.2
           classId := best.1 }
  else none

/-- The candidate list built by `processAndDraw` before NMS (app.js lines
148-182): transpose with `C = dims[1]`, `N = dims[2]` (the `[1, C, N]` layout
is assumed unconditionally), then decode each row. -/
def processAndDrawBoxes (originalWidth originalHeight : ℚ) (dims : List ℕ)
    (data : List ℚ) : List ABox :=
  (transpose data (dims.getD 1 0) (dims.getD 2 0)).filterMap
    (decodeRow originalWidth originalHeight)

/-- The final box list of `processAndDraw` (app.js line 185):
`nms(boxes, 0.45)`. -/
def processAndDraw (originalWidth originalHeight : ℚ) (dims : List ℕ)
    (data : List ℚ) : List ABox :=
  nms (processAndDrawBoxes originalWidth originalHeight dims data) (45 / 100)

end App

/-! ### Generic facts about the greedy NMS loop -/

theorem nmsLoop_nil {α : Type} (s : α → α → Bool) : nmsLoop s [] = [] := by
  simp [nmsLoop]

theorem nmsLoop_cons {α : Type} (s : α → α → Bool) (cur : α) (rest : List α) :
    nmsLoop s (cur :: rest) = cur :: nmsLoop s (rest.filter fun b => !(s cur b)) := by
  rw [nmsLoop]

/-- The loop only removes elements: its output is a sublist of its input. -/
theorem nmsLoop_sublist {α : Type} (s : α → α → Bool) (l : List α) :
    (nmsLoop s l).Sublist l := by
  induction l using nmsLoop.induct s with
  | case1 => simp [nmsLoop]
  | case2 cur rest ih =>
    rw [nmsLoop_cons]
    exact (ih.trans (List.filter_sublist _)).cons_cons _

theorem mem_of_mem_nmsLoop {α : Type} {s : α → α → Bool} {l : List α} {a : α}
    (h : a ∈ nmsLoop s l) : a ∈ l :=
  (nmsLoop_sublist s l).subset h

/-- Survivor invariant: no element of the output suppresses a later one. -/
theorem nmsLoop_pairwise {α : Type} (s : α → α → Bool) (l : List α) :
    (nmsLoop s l).Pairwise fun a b => s a b = false := by
  induction l using nmsLoop.induct s with
  | case1 => simp [nmsLoop]
  | case2 cur rest ih =>
    rw [nmsLoop_cons]
    refine List.Pairwise.cons (fun b hb => ?_) ih
    have hb2 := (List.mem_filter.mp (mem_of_mem_nmsLoop hb)).2
    simpa using hb2

/-- On a list in which no element suppresses a later one, the loop is the
identity. -/
theorem nmsLoop_eq_self {α : Type} (s : α → α → Bool) {l : List α}
    (h : l.Pairwise fun a b => s a b = false) : nmsLoop s l = l := by
  induction l with
  | nil => exact nmsLoop_nil s
  | cons cur rest ih =>
    rw [List.pairwise_cons] at h
    rw [nmsLoop_cons, List.filter_eq_self.mpr fun b hb => by simp [h.1 b hb], ih h.2]

/-! ### Facts about script.js `nonMaxSuppression` -/

theorem mem_of_mem_nonMaxSuppression {boxes : List Script.SBox} {thr : ℚ} {d : Script.SBox}
    (h : d ∈ Script.nonMaxSuppression boxes thr) : d ∈ boxes :=
  (List.perm_insertionSort Script.scoreDescS boxes).subset (mem_of_mem_nmsLoop h)

theorem nonMaxSuppression_sorted (boxes : List Script.SBox) (thr : ℚ) :
    List.Sorted Script.scoreDescS (Script.nonMaxSuppression boxes thr) :=
  List.Pairwise.sublist (nmsLoop_sublist _ _)
    (List.sorted_insertionSort Script.scoreDescS boxes)

theorem nonMaxSuppression_pairwise (boxes : List Script.SBox) (thr : ℚ) :
    (Script.nonMaxSuppression boxes thr).Pairwise
      fun a b => Script.sBoxSuppress thr a b = false :=
  nmsLoop_pairwise _ _

theorem nonMaxSuppression_idem (boxes : List Script.SBox) (thr : ℚ) :
    Script.nonMaxSuppression (Script.nonMaxSuppression boxes thr) thr
      = Script.nonMaxSuppression boxes thr := by
  conv_lhs => rw [Script.nonMaxSuppression]
  rw [(nonMaxSuppression_sorted boxes thr).insertionSort_eq]
  exact nmsLoop_eq_self _ (nonMaxSuppression_pairwise boxes thr)

/-- If no box of the list suppresses any other, `nonMaxSuppression` only
sorts: every input element survives. -/
theorem mem_nonMaxSuppression_of_no_suppression {boxes : List Script.SBox} {thr : ℚ}
    (h : ∀ x ∈ boxes, ∀ y ∈ boxes, Script.sBoxSuppress thr x y = false)
    {d : Script.SBox} (hd : d ∈ boxes) : d ∈ Script.nonMaxSuppression boxes thr := by
  unfold Script.nonMaxSuppression
  have hperm := List.perm_insertionSort Script.scoreDescS boxes
  rw [nmsLoop_eq_self _ (List.pairwise_of_forall_mem_list
    fun a ha b hb => h a (hperm.subset ha) b (hperm.subset hb))]
  exact hperm.mem_iff.mpr hd

/-! ### Facts about app.js `nms` -/

theorem mem_of_mem_nms {boxes : List App.ABox} {thr : ℚ} {b : App.ABox}
    (h : b ∈ App.nms boxes thr) : b ∈ boxes :=
  (List.perm_insertionSort App.scoreDescA boxes).subset (mem_of_mem_nmsLoop h)

theorem nms_sorted (boxes : List App.ABox) (thr : ℚ) :
    List.Sorted App.scoreDescA (App.nms boxes thr) :=
  List.Pairwise.sublist (nmsLoop_sublist _ _)
    (List.sorted_insertionSort App.scoreDescA boxes)

theorem nms_pairwise_keep (boxes : List App.ABox) (thr : ℚ) :
    (App.nms boxes thr).Pairwise fun a b => App.aBoxKeep thr a b = true := by
  have := nmsLoop_pairwise
    (fun currentBox b => !(App.aBoxKeep thr currentBox b))
    (List.insertionSort App.scoreDescA boxes)
  exact this.imp fun h => by simpa using h

theorem nms_idem (boxes : List App.ABox) (thr : ℚ) :
    App.nms (App.nms boxes thr) thr = App.nms boxes thr := by
  conv_lhs => rw [App.nms]
  rw [(nms_sorted boxes thr).insertionSort_eq]
  refine nmsLoop_eq_self _ ((nms_pairwise_keep boxes thr).imp fun h => by simp [h])

/-! ### Facts about the best-class search -/

/-- If nothing beats the running maximum, the accumulator never changes. -/
theorem bestClassAux_of_forall_le :
    ∀ (l : List ℚ) (k : ℕ) (bi : ℤ) (ms : ℚ), (∀ x ∈ l, x ≤ ms) →
      bestClassAux l k bi ms = (bi, ms) := by
  intro l
  induction l with
  | nil => intro k bi ms _; rfl
  | cons s rest ih =>
    intro k bi ms h
    have hs : ¬ s > ms := not_lt.mpr (h s (List.mem_cons_self _ _))
    simp only [bestClassAux, if_neg hs]
    exact ih _ _ _ fun x hx => h x (List.mem_cons_of_mem _ hx)

/-- Either the search never updates, or the final index is at least the
starting position and the final score strictly beats the initial one. -/
theorem bestClassAux_cases :
    ∀ (l : List ℚ) (k : ℕ) (bi : ℤ) (ms : ℚ),
      bestClassAux l k bi ms = (bi, ms) ∨
        ((k : ℤ) ≤ (bestClassAux l k bi ms).1 ∧ ms < (bestClassAux l k bi ms).2) := by
  intro l
  induction l with
  | nil => intro k bi ms; exact Or.inl rfl
  | cons s rest ih =>
    intro k bi ms
    by_cases hs : s > ms
    · simp only [bestClassAux, if_pos hs]
      rcases ih (k + 1) k s with h | ⟨h1, h2⟩
      · rw [h]; exact Or.inr ⟨le_refl _, hs⟩
      · exact Or.inr ⟨le_trans (by exact_mod_cast Nat.le_succ k) h1, lt_trans hs h2⟩
    · simp only [bestClassAux, if_neg hs]
      rcases ih (k + 1) bi ms with h | ⟨h1, h2⟩
      · exact Or.inl h
      · exact Or.inr ⟨le_trans (by exact_mod_cast Nat.le_succ k) h1, h2⟩

/-- When some element strictly beats the initial running maximum, the search
returns the maximum together with the position of its first occurrence. -/
theorem bestClassAux_first_max :
    ∀ (l : List ℚ) (k : ℕ) (bi : ℤ) (ms m : ℚ),
      m ∈ l → (∀ x ∈ l, x ≤ m) → ms < m →
      bestClassAux l k bi ms = (((k + l.findIdx fun s => decide (s = m) : ℕ) : ℤ), m) := by
  intro l
  induction l with
  | nil => intro k bi ms m hm; cases hm
  | cons s rest ih =>
    intro k bi ms m hm hle hms
    by_cases hsm : s = m
    · subst hsm
      simp only [bestClassAux, if_pos (show s > ms from hms)]
      rw [bestClassAux_of_forall_le rest (k + 1) k s
        fun x hx => hle x (List.mem_cons_of_mem _ hx)]
      simp [List.findIdx_cons]
    · have hs_lt : s < m := lt_of_le_of_ne (hle s (List.mem_cons_self _ _)) hsm
      have hm_rest : m ∈ rest := by
        cases hm with
        | head => exact absurd rfl hsm
        | tail _ h => exact h
      have hrec : ∀ bi2 ms2, ms2 < m →
          bestClassAux rest (k + 1) bi2 ms2
            = (((k + 1 + rest.findIdx fun s => decide (s = m) : ℕ) : ℤ), m) :=
        fun bi2 ms2 h2 =>
          ih (k + 1) bi2 ms2 m hm_rest (fun x hx => hle x (List.mem_cons_of_mem _ hx)) h2
      by_cases hs : s > ms
      · simp only [bestClassAux, if_pos hs]
        rw [hrec k s hs_lt]
        simp only [List.findIdx_cons, decide_eq_true_eq, hsm, decide_False, cond_false, Prod.mk.injEq,
          and_true]
        push_cast
        omega
      · simp only [bestClassAux, if_neg hs]
        rw [hrec bi ms hms]
        simp only [List.findIdx_cons, decide_eq_true_eq, hsm, decide_False, cond_false, Prod.mk.injEq,
          and_true]
        push_cast
        omega

/-- `bestClass` returns the first occurrence of the maximum whenever the
maximum is strictly positive. -/
theorem bestClass_first_max {scores : List ℚ} {m : ℚ}
    (hm : m ∈ scores) (hle : ∀ x ∈ scores, x ≤ m) (hpos : 0 < m) :
    bestClass scores = (((scores.findIdx fun s => decide (s = m) : ℕ) : ℤ), m) := by
  simpa using bestClassAux_first_max scores 0 (-1) 0 m hm hle hpos

/-- If every score is nonpositive, the search keeps the sentinel `(-1, 0)`. -/
theorem bestClass_of_forall_nonpos {scores : List ℚ}
    (h : ∀ x ∈ scores, x ≤ 0) : bestClass scores = (-1, 0) :=
  bestClassAux_of_forall_le scores 0 (-1) 0 h

/-- A strictly positive best score forces a nonnegative best index. -/
theorem bestClass_idx_nonneg {scores : List ℚ}
    (h : 0 < (bestClass scores).2) : 0 ≤ (bestClass scores).1 := by
  rcases bestClassAux_cases scores 0 (-1) 0 with heq | ⟨h1, _⟩
  · rw [show bestClass scores = bestClassAux scores 0 (-1) 0 from rfl, heq] at h
    exact absurd h (lt_irrefl 0)
  · exact_mod_cast h1

/-! ### Facts about the IoU computation -/

theorem interArea_nonneg (box1 box2 : Script.SBox) : 0 ≤ Script.interArea box1 box2 :=
  mul_nonneg (le_max_left 0 _) (le_max_left 0 _)

/-- A zero union area forces a zero intersection area: the only degenerate
JavaScript division in `intersectionOverUnion` is `0 / 0` (`NaN`), never
`x / 0` with `x ≠ 0` (`Infinity`). -/
theorem interArea_eq_zero_of_unionArea_eq_zero (box1 box2 : Script.SBox)
    (h : Script.unionArea box1 box2 = 0) : Script.interArea box1 box2 = 0 := by
  by_contra hne
  have hpos : 0 < Script.interArea box1 box2 :=
    lt_of_le_of_ne (interArea_nonneg box1 box2) (Ne.symm hne)
  unfold Script.unionArea at h
  unfold Script.interArea at hpos h
  set A := min (box1.x + box1.w) (box2.x + box2.w) - max box1.x box2.x with hA
  set B := min (box1.y + box1.h) (box2.y + box2.h) - max box1.y box2.y with hB
  have hfac : 0 < max 0 A ∧ 0 < max 0 B := by
    rcases mul_pos_iff.mp hpos with hp | ⟨ha, _⟩
    · exact hp
    · exact absurd ha (not_lt.mpr (le_max_left 0 A))
  have hApos : 0 < A := by rcases lt_max_iff.mp hfac.1 with h0 | h0; exacts [absurd h0 (lt_irrefl 0), h0]
  have hBpos : 0 < B := by rcases lt_max_iff.mp hfac.2 with h0 | h0; exacts [absurd h0 (lt_irrefl 0), h0]
  rw [max_eq_right hApos.le, max_eq_right hBpos.le] at h
  have hAle : A ≤ box2.w := by
    have h1 := min_le_right (box1.x + box1.w) (box2.x + box2.w)
    have h2 := le_max_right box1.x box2.x
    rw [hA]; linarith
  have hBle : B ≤ box2.h := by
    have h1 := min_le_right (box1.y + box1.h) (box2.y + box2.h)
    have h2 := le_max_right box1.y box2.y
    rw [hB]; linarith
  have hA1 : A ≤ box1.w := by
    have h1 := min_le_left (box1.x + box1.w) (box2.x + box2.w)
    have h2 := le_max_left box1.x box2.x
    rw [hA]; linarith
  have hB1 : B ≤ box1.h := by
    have h1 := min_le_left (box1.y + box1.h) (box2.y + box2.h)
    have h2 := le_max_left box1.y box2.y
    rw [hB]; linarith
  have hab : A * B ≤ box2.w * box2.h :=
    mul_le_mul hAle hBle hBpos.le (le_trans hApos.le hAle)
  have hwh : 0 < box1.w * box1.h :=
    mul_pos (lt_of_lt_of_le hApos hA1) (lt_of_lt_of_le hBpos hB1)
  linarith

/-- A box with nonpositive width or height has zero intersection with any
other box. -/
theorem interArea_degenerate (box1 box2 : Script.SBox)
    (hdeg : box1.w ≤ 0 ∨ box1.h ≤ 0) : Script.interArea box1 box2 = 0 := by
  unfold Script.interArea
  rcases hdeg with hw | hh
  · have hfac : min (box1.x + box1.w) (box2.x + box2.w) - max box1.x box2.x ≤ 0 := by
      have h1 := min_le_left (box1.x + box1.w) (box2.x + box2.w)
      have h2 := le_max_left box1.x box2.x
      linarith
    rw [max_eq_left hfac, zero_mul]
  · have hfac : min (box1.y + box1.h) (box2.y + box2.h) - max box1.y box2.y ≤ 0 := by
      have h1 := min_le_left (box1.y + box1.h) (box2.y + box2.h)
      have h2 := le_max_left box1.y box2.y
      linarith
    rw [max_eq_left hfac, mul_zero]

theorem interArea_comm (box1 box2 : Script.SBox) :
    Script.interArea box1 box2 = Script.interArea box2 box1 := by
  unfold Script.interArea
  rw [min_comm (box1.x + box1.w), max_comm box1.x, min_comm (box1.y + box1.h),
    max_comm box1.y]

theorem unionArea_comm (box1 box2 : Script.SBox) :
    Script.unionArea box1 box2 = Script.unionArea box2 box1 := by
  unfold Script.unionArea
  rw [interArea_comm]
  ring

/-- For a nonnegative threshold, a degenerate (zero-or-negative width or
height) box never suppresses and is never suppressed by script.js's
suppression test. -/
theorem sBoxSuppress_degenerate (thr : ℚ) (box1 box2 : Script.SBox)
    (hdeg : box1.w ≤ 0 ∨ box1.h ≤ 0) (hthr : 0 ≤ thr) :
    Script.sBoxSuppress thr box1 box2 = false ∧
      Script.sBoxSuppress thr box2 box1 = false := by
  have hi12 : Script.interArea box1 box2 = 0 := interArea_degenerate box1 box2 hdeg
  have hi21 : Script.interArea box2 box1 = 0 := by rw [← interArea_comm]; exact hi12
  have hnot : ¬ (0 : ℚ) > thr := not_lt.mpr hthr
  constructor
  · unfold Script.sBoxSuppress Script.intersectionOverUnion
    rw [hi12]
    by_cases hu : Script.unionArea box1 box2 = 0
    · simp [hu]
    · simp [hu, zero_div, hnot]
  · unfold Script.sBoxSuppress Script.intersectionOverUnion
    rw [hi21]
    by_cases hu : Script.unionArea box2 box1 = 0
    · simp [hu]
    · simp [hu, zero_div, hnot]

/-! ### Facts about the decoders -/

theorem sDecodeRow_some {confT canvasW canvasH : ℚ} {row : List ℚ} {d : Script.SBox}
    (h : Script.decodeRow confT canvasW canvasH row = some d) :
    confT < d.score := by
  simp only [Script.decodeRow] at h
  by_cases hc : (bestClass ((row.drop 4).take Script.classNames.length)).2 > confT
  · rw [if_pos hc] at h
    injection h with h
    subst h
    exact hc
  · rw [if_neg hc] at h
    simp at h

theorem aDecodeRow_some {originalWidth originalHeight : ℚ} {row : List ℚ} {b : App.ABox}
    (h : App.decodeRow originalWidth originalHeight row = some b) :
    1 / 2 < b.score ∧ b.score = (bestClass (row.drop 4)).2 ∧
      b.classId = (bestClass (row.drop 4)).1 := by
  simp only [App.decodeRow] at h
  by_cases hc : (bestClass (row.drop 4)).2 > 1 / 2
  · rw [if_pos hc] at h
    injection h with h
    subst h
    exact ⟨hc, rfl, rfl⟩
  · rw [if_neg hc] at h
    simp at h

/-- A row shorter than five entries carries no class scores, so the decoder
rejects it for every nonnegative threshold. -/
theorem sDecodeRow_short {confT canvasW canvasH : ℚ} {row : List ℚ}
    (hlen : row.length ≤ 4) (hconf : 0 ≤ confT) :
    Script.decodeRow confT canvasW canvasH row = none := by
  have hdrop : row.drop 4 = [] := List.drop_eq_nil_of_le hlen
  simp only [Script.decodeRow, hdrop, List.take_nil]
  exact if_neg (not_lt.mpr hconf)

/-! ### Facts about the transpose step -/

theorem map_getD_range_eq {α : Type} (l : List α) (d : α) :
    ((List.range l.length).map fun j => l.getD j d) = l := by
  induction l with
  | nil => rfl
  | cons a t ih =>
    rw [List.length_cons, List.range_succ_eq_map]
    rw [List.map_cons, List.getD_cons_zero, List.map_map]
    have hco : ((fun j => (a :: t).getD j d) ∘ Nat.succ) = fun j => t.getD j d := by
      funext j
      simp [List.getD_cons_succ]
    rw [hco, ih]

theorem transpose_row_length {data : List ℚ} {C N : ℕ} {r : List ℚ}
    (hr : r ∈ transpose data C N) : r.length = C := by
  unfold transpose at hr
  obtain ⟨i, _, rfl⟩ := List.mem_map.mp hr
  simp

theorem channelMajorFlatten_getD {rows : List (List ℚ)} {C N i j : ℕ}
    (hi : i < N) (hj : j < C) :
    (channelMajorFlatten rows C N).getD (j * N + i) 0 = (rows.getD i []).getD j 0 := by
  have hN : 0 < N := Nat.lt_of_le_of_lt (Nat.zero_le i) hi
  have hk : j * N + i < C * N :=
    calc j * N + i < j * N + N := Nat.add_lt_add_left hi _
      _ = (j + 1) * N := by ring
      _ ≤ C * N := Nat.mul_le_mul_right N hj
  have hmod : (j * N + i) % N = i := by
    rw [Nat.mul_comm j N, Nat.mul_add_mod]
    exact Nat.mod_eq_of_lt hi
  have hdiv : (j * N + i) / N = j := by
    rw [Nat.mul_comm j N, Nat.mul_add_div hN, Nat.div_eq_of_lt hi]
    omega
  unfold channelMajorFlatten
  rw [List.getD_eq_getElem?_getD, List.getElem?_map, List.getElem?_range hk]
  simp only [Option.map_some', Option.getD_some]
  rw [hmod, hdiv]

/-- The decoder's transpose step exactly inverts channel-major flattening:
for a `[1, C, N]` buffer holding `rows[i][j]` at flat index `j * N + i`, the
transposed per-detection rows are the original rows. -/
theorem transpose_channelMajorFlatten {rows : List (List ℚ)} {C N : ℕ}
    (hN : rows.length = N) (hC : ∀ r ∈ rows, r.length = C) :
    transpose (channelMajorFlatten rows C N) C N = rows := by
  unfold transpose
  have hstep : ∀ i ∈ List.range N,
      ((List.range C).map fun j => (channelMajorFlatten rows C N).getD (j * N + i) 0)
        = rows.getD i [] := by
    intro i hi
    rw [List.map_congr_left fun j hj =>
      channelMajorFlatten_getD (List.mem_range.mp hi) (List.mem_range.mp hj)]
    have hi' : i < rows.length := hN ▸ List.mem_range.mp hi
    have hmem : rows.getD i [] ∈ rows := by
      rw [List.getD_eq_getElem?_getD, List.getElem?_eq_getElem hi', Option.getD_some]
      exact List.getElem_mem hi'
    rw [← hC _ hmem, map_getD_range_eq]
  rw [List.map_congr_left hstep, ← hN, map_getD_range_eq]

/-- Degenerate shapes decode to the empty list: a channel count of at most 4
(this includes shape descriptors with fewer than 2 entries, whose missing
entries read as 0) leaves no class scores, and a detection count of 0 leaves
no rows. -/
theorem postprocessResults_degenerate_shape (confT canvasW canvasH : ℚ)
    (dims : List ℕ) (data : List ℚ) (hconf : 0 ≤ confT)
    (h : dims.getD 1 0 ≤ 4 ∨ dims.getD 2 0 = 0) :
    Script.postprocessResults confT canvasW canvasH dims data = [] := by
  have hboxes : (transpose data (dims.getD 1 0) (dims.getD 2 0)).filterMap
      (Script.decodeRow confT canvasW canvasH) = [] := by
    rcases h with hC | hN
    · refine List.filterMap_eq_nil_iff.mpr fun row hrow => ?_
      exact sDecodeRow_short (le_trans (le_of_eq (transpose_row_length hrow)) hC) hconf
    · rw [hN]
      simp [transpose]
  simp only [Script.postprocessResults]
  rw [hboxes]
  simp [Script.nonMaxSuppression, List.insertionSort, nmsLoop_nil]

/-- For a two-candidate list whose elements carry different labels, the greedy
loop keeps both. -/
theorem nmsLoop_pair_distinct_labels (thr : ℚ) (x y : Script.SBox)
    (hxy : x.label ≠ y.label) :
    nmsLoop (Script.sBoxSuppress thr) [x, y] = [x, y] := by
  have hs : Script.sBoxSuppress thr x y = false := by
    unfold Script.sBoxSuppress
    rw [if_neg fun h => hxy h.symm]
  rw [nmsLoop_cons]
  simp [List.filter_cons, hs, nmsLoop_cons, nmsLoop_nil]

theorem insertionSort_pair (r : Script.SBox → Script.SBox → Prop) [DecidableRel r]
    (b1 b2 : Script.SBox) :
    List.insertionSort r [b1, b2] = [b1, b2] ∨
      List.insertionSort r [b1, b2] = [b2, b1] := by
  simp only [List.insertionSort, List.orderedInsert]
  by_cases hr : r b1 b2
  · left
    rw [if_pos hr]
  · right
    rw [if_neg hr]

/-! ## The claims -/

/-- C1: for every confidence threshold and every input tensor, every
detection returned by the pipeline has score strictly greater than the
threshold: candidates are accepted only on a strict `score > threshold`
comparison (script.js line 183 with the `confidenceThreshold` constant,
app.js line 167 with the literal `0.5`), and suppression only removes
detections. -/
theorem C1_scores_exceed_threshold :
    (∀ (confT canvasW canvasH : ℚ) (dims : List ℕ) (data : List ℚ) (d : Script.SBox),
        d ∈ Script.postprocessResults confT canvasW canvasH dims data →
          d.score > confT) ∧
    (∀ (originalWidth originalHeight : ℚ) (dims : List ℕ) (data : List ℚ) (b : App.ABox),
        b ∈ App.processAndDraw originalWidth originalHeight dims data →
          b.score > 1 / 2) := by
  constructor
  · intro confT canvasW canvasH dims data d hd
    simp only [Script.postprocessResults] at hd
    obtain ⟨row, _, hrow⟩ := List.mem_filterMap.mp (mem_of_mem_nonMaxSuppression hd)
    exact sDecodeRow_some hrow
  · intro originalWidth originalHeight dims data b hb
    simp only [App.processAndDraw, App.processAndDrawBoxes] at hb
    obtain ⟨row, _, hrow⟩ := List.mem_filterMap.mp (mem_of_mem_nms hb)
    exact (aDecodeRow_some hrow).1

/-- Witness for C1 at a concrete tensor: shape `[1, 6, 1]`, one candidate
with class scores `0.9` and `0.1`. -/
theorem C1_scores_exceed_threshold_witness :
    ((⟨270, 270, 100, 100, some "person", 9/10⟩ : Script.SBox) ∈
        Script.postprocessResults (1/2) 640 640 [1, 6, 1]
          [320, 320, 100, 100, 9/10, 1/10] ∧
      (⟨270, 270, 100, 100, some "person", 9/10⟩ : Script.SBox).score > 1/2) ∧
    ((⟨270, 270, 370, 370, 9/10, 0⟩ : App.ABox) ∈
        App.processAndDraw 640 640 [1, 6, 1] [320, 320, 100, 100, 9/10, 1/10] ∧
      (⟨270, 270, 370, 370, 9/10, 0⟩ : App.ABox).score > 1/2) := by
  have hs : (⟨270, 270, 100, 100, some "person", 9/10⟩ : Script.SBox) ∈
      Script.postprocessResults (1/2) 640 640 [1, 6, 1]
        [320, 320, 100, 100, 9/10, 1/10] := by
    norm_num [Script.postprocessResults, transpose, List.range_succ, Script.decodeRow,
      bestClass, bestClassAux, Script.classNameAt, Script.classNames,
      Script.nonMaxSuppression, List.insertionSort, List.orderedInsert,
      Script.scoreDescS, nmsLoop, Script.sBoxSuppress, Script.intersectionOverUnion,
      Script.unionArea, Script.interArea, modelWidth, modelHeight,
      List.take_of_length_le, List.filterMap_cons]
  have ha : (⟨270, 270, 370, 370, 9/10, 0⟩ : App.ABox) ∈
      App.processAndDraw 640 640 [1, 6, 1] [320, 320, 100, 100, 9/10, 1/10] := by
    norm_num [App.processAndDraw, App.processAndDrawBoxes, transpose, List.range_succ,
      App.decodeRow, bestClass, bestClassAux, App.nms, List.insertionSort,
      List.orderedInsert, App.scoreDescA, nmsLoop, App.aBoxKeep, App.iou,
      modelWidth, modelHeight, List.filterMap_cons]
  exact ⟨⟨hs, C1_scores_exceed_threshold.1 _ _ _ _ _ _ hs⟩,
    ⟨ha, C1_scores_exceed_threshold.2 _ _ _ _ _ ha⟩⟩

/-- C2 counterexample: two same-label boxes whose IoU is exactly the
threshold `0.5` BOTH survive script.js `nonMaxSuppression`, because the
removal comparison there is the strict `iou > iouThreshold`; the claim's
inclusive (`>=`) removal would have dropped the second box. -/
theorem C2_counterexample :
    Script.nonMaxSuppression
        [⟨0, 0, 2, 1, some "cat", 9/10⟩, ⟨0, 0, 1, 1, some "cat", 8/10⟩] (1/2)
      = [⟨0, 0, 2, 1, some "cat", 9/10⟩, ⟨0, 0, 1, 1, some "cat", 8/10⟩] ∧
    Script.intersectionOverUnion ⟨0, 0, 2, 1, some "cat", 9/10⟩
        ⟨0, 0, 1, 1, some "cat", 8/10⟩ = some (1/2) ∧
    ((1:ℚ)/2 ≥ 1/2) ∧
    (⟨0, 0, 2, 1, some "cat", 9/10⟩ : Script.SBox).label
      = (⟨0, 0, 1, 1, some "cat", 8/10⟩ : Script.SBox).label := by
  refine ⟨?_, ?_, le_refl _, rfl⟩
  · norm_num [Script.nonMaxSuppression, List.insertionSort, List.orderedInsert,
      Script.scoreDescS, nmsLoop, Script.sBoxSuppress, Script.intersectionOverUnion,
      Script.unionArea, Script.interArea]
  · norm_num [Script.intersectionOverUnion, Script.unionArea, Script.interArea]

/-- C2 (amended): in script.js `nonMaxSuppression` a same-label candidate is
removed exactly when `iou > iouThreshold` (strict), so among the survivors no
same-label pair has IoU strictly above the threshold — a pair with IoU equal
to the threshold survives.  In app.js `nms` removal is inclusive (a remaining
box is kept only when `iou < iouThreshold`), so there every surviving pair
has IoU strictly below the threshold. -/
theorem C2_survivor_iou_invariant :
    (∀ (boxes : List Script.SBox) (thr : ℚ),
        (Script.nonMaxSuppression boxes thr).Pairwise
          fun a b => b.label = a.label →
            ∀ q, Script.intersectionOverUnion a b = some q → q ≤ thr) ∧
    (∀ (boxes : List App.ABox) (thr : ℚ),
        (App.nms boxes thr).Pairwise
          fun a b => ∀ q, App.iou a b = some q → q < thr) := by
  constructor
  · intro boxes thr
    refine (nonMaxSuppression_pairwise boxes thr).imp ?_
    intro a b hs hl q hq
    unfold Script.sBoxSuppress at hs
    rw [if_pos hl, hq] at hs
    simpa [not_lt] using hs
  · intro boxes thr
    refine (nms_pairwise_keep boxes thr).imp ?_
    intro a b hk q hq
    unfold App.aBoxKeep at hk
    rw [hq] at hk
    simpa using hk

/-- Witness for C2 (amended) at a concrete suppression run. -/
theorem C2_survivor_iou_invariant_witness :
    (Script.nonMaxSuppression
        [⟨0, 0, 2, 1, some "cat", 9/10⟩, ⟨0, 0, 1, 1, some "cat", 8/10⟩] (1/2)).Pairwise
      (fun a b => b.label = a.label →
        ∀ q, Script.intersectionOverUnion a b = some q → q ≤ 1/2) ∧
    (App.nms [⟨0, 0, 2, 2, 9/10, 0⟩, ⟨0, 0, 2, 2, 8/10, 0⟩] (45/100)).Pairwise
      (fun a b => ∀ q, App.iou a b = some q → q < 45/100) :=
  ⟨C2_survivor_iou_invariant.1 _ _, C2_survivor_iou_invariant.2 _ _⟩

/-- C3: with class-scoped suppression, same-class membership is necessary for
one detection to suppress another: for any two candidates with different
labels (in particular two with identical geometry), both survive script.js
`nonMaxSuppression` regardless of overlap. -/
theorem C3_different_labels_both_survive (thr : ℚ) (b1 b2 : Script.SBox)
    (hne : b1.label ≠ b2.label) :
    b1 ∈ Script.nonMaxSuppression [b1, b2] thr ∧
      b2 ∈ Script.nonMaxSuppression [b1, b2] thr := by
  unfold Script.nonMaxSuppression
  rcases insertionSort_pair Script.scoreDescS b1 b2 with h | h
  · rw [h, nmsLoop_pair_distinct_labels thr b1 b2 hne]
    simp
  · rw [h, nmsLoop_pair_distinct_labels thr b2 b1 fun hl => hne hl.symm]
    simp

/-- Witness for C3: identical geometry, labels `cat` and `dog`, full overlap,
both survive. -/
theorem C3_different_labels_both_survive_witness :
    (⟨0, 0, 1, 1, some "cat", 9/10⟩ : Script.SBox).label
        ≠ (⟨0, 0, 1, 1, some "dog", 8/10⟩ : Script.SBox).label ∧
    (⟨0, 0, 1, 1, some "cat", 9/10⟩ : Script.SBox) ∈
      Script.nonMaxSuppression
        [⟨0, 0, 1, 1, some "cat", 9/10⟩, ⟨0, 0, 1, 1, some "dog", 8/10⟩] (1/2) ∧
    (⟨0, 0, 1, 1, some "dog", 8/10⟩ : Script.SBox) ∈
      Script.nonMaxSuppression
        [⟨0, 0, 1, 1, some "cat", 9/10⟩, ⟨0, 0, 1, 1, some "dog", 8/10⟩] (1/2) := by
  have hne : (⟨0, 0, 1, 1, some "cat", 9/10⟩ : Script.SBox).label
      ≠ (⟨0, 0, 1, 1, some "dog", 8/10⟩ : Script.SBox).label := by
    simp
  exact ⟨hne, (C3_different_labels_both_survive (1/2) _ _ hne).1,
    (C3_different_labels_both_survive (1/2) _ _ hne).2⟩

/-- C4: both suppressors are idempotent: suppression applied to its own
output (same IoU threshold) returns that output unchanged. -/
theorem C4_suppression_idempotent :
    (∀ (boxes : List Script.SBox) (thr : ℚ),
        Script.nonMaxSuppression (Script.nonMaxSuppression boxes thr) thr
          = Script.nonMaxSuppression boxes thr) ∧
    (∀ (boxes : List App.ABox) (thr : ℚ),
        App.nms (App.nms boxes thr) thr = App.nms boxes thr) :=
  ⟨nonMaxSuppression_idem, nms_idem⟩

/-- C5 counterexample: for two boxes of zero area the union is `0`, the
JavaScript IoU is `0 / 0 = NaN` (modelled `none`), not `0`; and in app.js
`nms` the `NaN` comparison `iou < iouThreshold` is `false`, so the zero-area
candidate IS suppressed by the identical zero-area box. -/
theorem C5_counterexample :
    Script.intersectionOverUnion ⟨0, 0, 0, 0, some "cat", 9/10⟩
        ⟨0, 0, 0, 0, some "cat", 8/10⟩ = none ∧
    App.nms [⟨5, 5, 5, 5, 9/10, 3⟩, ⟨5, 5, 5, 5, 8/10, 3⟩] (45/100)
      = [⟨5, 5, 5, 5, 9/10, 3⟩] := by
  constructor
  · norm_num [Script.intersectionOverUnion, Script.unionArea, Script.interArea]
  · norm_num [App.nms, List.insertionSort, List.orderedInsert, App.scoreDescA,
      nmsLoop, App.aBoxKeep, App.iou]

/-- C5 (amended): a box with nonpositive width or height has intersection
area `0` with every box, so whenever the union area is nonzero its IoU is
`some 0` (well-defined), and for any nonnegative threshold it neither
suppresses nor is suppressed in script.js's suppression test; but when the
union area is zero the division is `0 / 0` (`NaN`, modelled `none`), not `0`,
and app.js `nms` then removes the candidate (see the counterexample). -/
theorem C5_zero_area_iou (box1 box2 : Script.SBox) (thr : ℚ)
    (hdeg : box1.w ≤ 0 ∨ box1.h ≤ 0) (hthr : 0 ≤ thr) :
    Script.interArea box1 box2 = 0 ∧
    (Script.unionArea box1 box2 ≠ 0 →
      Script.intersectionOverUnion box1 box2 = some 0) ∧
    Script.sBoxSuppress thr box1 box2 = false ∧
    Script.sBoxSuppress thr box2 box1 = false := by
  have hi := interArea_degenerate box1 box2 hdeg
  refine ⟨hi, fun hu => ?_, sBoxSuppress_degenerate thr box1 box2 hdeg hthr⟩
  unfold Script.intersectionOverUnion
  rw [if_neg hu, hi, zero_div]

/-- Witness for C5 (amended): a width-zero box against an ordinary unit box. -/
theorem C5_zero_area_iou_witness :
    ((⟨3, 3, 0, 2, some "cat", 9/10⟩ : Script.SBox).w ≤ 0 ∨
      (⟨3, 3, 0, 2, some "cat", 9/10⟩ : Script.SBox).h ≤ 0) ∧
    (0 : ℚ) ≤ 1/2 ∧
    Script.interArea ⟨3, 3, 0, 2, some "cat", 9/10⟩ ⟨0, 0, 1, 1, some "cat", 8/10⟩ = 0 ∧
    (Script.unionArea ⟨3, 3, 0, 2, some "cat", 9/10⟩ ⟨0, 0, 1, 1, some "cat", 8/10⟩ ≠ 0 →
      Script.intersectionOverUnion ⟨3, 3, 0, 2, some "cat", 9/10⟩
        ⟨0, 0, 1, 1, some "cat", 8/10⟩ = some 0) ∧
    Script.sBoxSuppress (1/2) ⟨3, 3, 0, 2, some "cat", 9/10⟩
        ⟨0, 0, 1, 1, some "cat", 8/10⟩ = false ∧
    Script.sBoxSuppress (1/2) ⟨0, 0, 1, 1, some "cat", 8/10⟩
        ⟨3, 3, 0, 2, some "cat", 9/10⟩ = false := by
  have hdeg : (⟨3, 3, 0, 2, some "cat", 9/10⟩ : Script.SBox).w ≤ 0 ∨
      (⟨3, 3, 0, 2, some "cat", 9/10⟩ : Script.SBox).h ≤ 0 := Or.inl le_rfl
  have hthr : (0 : ℚ) ≤ 1/2 := by norm_num
  exact ⟨hdeg, hthr,
    C5_zero_area_iou ⟨3, 3, 0, 2, some "cat", 9/10⟩ ⟨0, 0, 1, 1, some "cat", 8/10⟩
      (1/2) hdeg hthr⟩

/-- C6 counterexample: the decoder does NOT detect the tensor orientation.
With a single candidate row `[320, 320, 100, 100, 0.9, 0.1]` the flat buffer
is identical under the channel-major descriptor `[1, 6, 1]` and the
detection-major descriptor `[1, 1, 6]`, yet `postprocessResults` (which
always reads `C = dims[1]`, `N = dims[2]` and always transposes) decodes one
detection from the former and none from the latter. -/
theorem C6_counterexample :
    Script.postprocessResults (1/2) 640 640 [1, 6, 1]
        [320, 320, 100, 100, 9/10, 1/10]
      ≠ Script.postprocessResults (1/2) 640 640 [1, 1, 6]
        [320, 320, 100, 100, 9/10, 1/10] := by
  have h1 : Script.postprocessResults (1/2) 640 640 [1, 6, 1]
      [320, 320, 100, 100, 9/10, 1/10]
      = [⟨270, 270, 100, 100, some "person", 9/10⟩] := by
    norm_num [Script.postprocessResults, transpose, List.range_succ, Script.decodeRow,
      bestClass, bestClassAux, Script.classNameAt, Script.classNames,
      Script.nonMaxSuppression, List.insertionSort, List.orderedInsert,
      Script.scoreDescS, nmsLoop, Script.sBoxSuppress, Script.intersectionOverUnion,
      Script.unionArea, Script.interArea, modelWidth, modelHeight,
      List.take_of_length_le, List.filterMap_cons]
  have h2 : Script.postprocessResults (1/2) 640 640 [1, 1, 6]
      [320, 320, 100, 100, 9/10, 1/10] = [] := by
    norm_num [Script.postprocessResults, transpose, List.range_succ, Script.decodeRow,
      bestClass, bestClassAux, Script.classNameAt, Script.classNames,
      Script.nonMaxSuppression, List.insertionSort, List.orderedInsert,
      Script.scoreDescS, nmsLoop, Script.sBoxSuppress, Script.intersectionOverUnion,
      Script.unionArea, Script.interArea, modelWidth, modelHeight,
      List.take_of_length_le, List.filterMap_cons]
  rw [h1, h2]
  simp

/-- C6 (amended): the decoders support exactly one orientation — they read
`C = dims[1]`, `N = dims[2]` and always transpose, with no layout detection —
and for that channel-major orientation the transpose step is correct: it
exactly recovers the per-detection rows from a `[1, C, N]` buffer. -/
theorem C6_transpose_inverts_channel_major (rows : List (List ℚ)) (C N : ℕ)
    (hN : rows.length = N) (hC : ∀ r ∈ rows, r.length = C) :
    transpose (channelMajorFlatten rows C N) C N = rows :=
  transpose_channelMajorFlatten hN hC

/-- Witness for C6 (amended) on a concrete 2-by-3 row set. -/
theorem C6_transpose_inverts_channel_major_witness :
    ([[1, 2, 3], [4, 5, 6]] : List (List ℚ)).length = 2 ∧
    (∀ r ∈ ([[1, 2, 3], [4, 5, 6]] : List (List ℚ)), r.length = 3) ∧
    transpose (channelMajorFlatten [[1, 2, 3], [4, 5, 6]] 3 2) 3 2
      = [[1, 2, 3], [4, 5, 6]] := by
  have hN : ([[1, 2, 3], [4, 5, 6]] : List (List ℚ)).length = 2 := by simp
  have hC : ∀ r ∈ ([[1, 2, 3], [4, 5, 6]] : List (List ℚ)), r.length = 3 := by
    intro r hr
    rcases List.mem_cons.mp hr with h | h
    · simp [h]
    · rcases List.mem_cons.mp h with h2 | h2
      · simp [h2]
      · cases h2
  exact ⟨hN, hC, C6_transpose_inverts_channel_major _ 3 2 hN hC⟩

/-- C7 counterexample: the decoder has no error path.  A shape descriptor
with a single entry, and a shape with channel count `C = 4 < 5`, each decode
to the ordinary EMPTY DETECTION LIST — there is no `MalformedShape` error
value anywhere in the code, so the frame's result is a detection list, not an
error. -/
theorem C7_counterexample :
    Script.postprocessResults (1/2) 640 640 [1] [9/10, 9/10, 9/10, 9/10, 9/10] = [] ∧
    Script.postprocessResults (1/2) 640 640 [1, 4, 1] [320, 320, 100, 100] = [] := by
  constructor
  · exact postprocessResults_degenerate_shape _ _ _ _ _ (by norm_num)
      (Or.inl (by norm_num))
  · exact postprocessResults_degenerate_shape _ _ _ _ _ (by norm_num)
      (Or.inl (by norm_num))

/-- C7 (amended): decoding never fails.  For any nonnegative threshold, a
shape whose channel entry `dims[1]` is at most 4 — which covers descriptors
with fewer than 2 (or 3) entries, whose missing entries read as 0, and the
`C < 5` case — or whose detection-count entry `dims[2]` is 0 (the empty
tensor) decodes to the empty detection list, not an error. -/
theorem C7_malformed_shape_decodes_empty (confT canvasW canvasH : ℚ)
    (dims : List ℕ) (data : List ℚ) (hconf : 0 ≤ confT)
    (h : dims.getD 1 0 ≤ 4 ∨ dims.getD 2 0 = 0) :
    Script.postprocessResults confT canvasW canvasH dims data = [] :=
  postprocessResults_degenerate_shape confT canvasW canvasH dims data hconf h

/-- Witness for C7 (amended): the empty tensor `N = 0` with shape
`[1, 116, 0]` decodes to the empty sequence. -/
theorem C7_malformed_shape_decodes_empty_witness :
    (0 : ℚ) ≤ 1/2 ∧
    (([1, 116, 0] : List ℕ).getD 1 0 ≤ 4 ∨ ([1, 116, 0] : List ℕ).getD 2 0 = 0) ∧
    Script.postprocessResults (1/2) 640 640 [1, 116, 0] [] = [] := by
  have h1 : (0 : ℚ) ≤ 1/2 := by norm_num
  have h2 : (([1, 116, 0] : List ℕ).getD 1 0 ≤ 4 ∨ ([1, 116, 0] : List ℕ).getD 2 0 = 0) :=
    Or.inr (by simp)
  exact ⟨h1, h2, C7_malformed_shape_decodes_empty (1/2) 640 640 [1, 116, 0] [] h1 h2⟩

/-- C8 counterexample: on a candidate row whose class scores are `[0, 0]` the
maximum is `0`, attained first at index `0`, but the best-class search keeps
the sentinel index `-1`: the selected class index is NOT the least index
attaining the maximum for every row. -/
theorem C8_counterexample :
    (0:ℚ) ∈ [(0:ℚ), 0] ∧ (∀ x ∈ [(0:ℚ), 0], x ≤ 0) ∧
    List.findIdx (fun s => decide (s = (0:ℚ))) [(0:ℚ), 0] = 0 ∧
    bestClass [(0:ℚ), 0] = (-1, 0) ∧
    (bestClass [(0:ℚ), 0]).1
      ≠ ((List.findIdx (fun s => decide (s = (0:ℚ))) [(0:ℚ), 0] : ℕ) : ℤ) := by
  have hb : bestClass [(0:ℚ), 0] = (-1, 0) := by norm_num [bestClass, bestClassAux]
  have hf : List.findIdx (fun s => decide (s = (0:ℚ))) [(0:ℚ), 0] = 0 := by
    norm_num [List.findIdx_cons]
  refine ⟨by simp, by simp, hf, hb, ?_⟩
  rw [hb, hf]
  decide

/-- C8 (amended): whenever the maximum class score of a row is strictly
positive, the best-class search returns that maximum together with the LEAST
index attaining it (ties resolve to the first occurrence, since the update
requires a strictly greater score); rows whose scores are all nonpositive
instead keep the sentinel `(-1, 0)`. -/
theorem C8_ties_resolve_to_first_occurrence :
    (∀ (scores : List ℚ) (m : ℚ), m ∈ scores → (∀ x ∈ scores, x ≤ m) → 0 < m →
        bestClass scores = (((scores.findIdx fun s => decide (s = m) : ℕ) : ℤ), m)) ∧
    (∀ scores : List ℚ, (∀ x ∈ scores, x ≤ 0) → bestClass scores = (-1, 0)) :=
  ⟨fun _ _ hm hle hpos => bestClass_first_max hm hle hpos,
   fun _ h => bestClass_of_forall_nonpos h⟩

/-- Witness for C8 (amended): scores `[1/4, 3/4, 3/4]` tie at the maximum
`3/4`; the search selects index `1`, the first occurrence. -/
theorem C8_ties_resolve_to_first_occurrence_witness :
    (3:ℚ)/4 ∈ [(1:ℚ)/4, 3/4, 3/4] ∧
    (∀ x ∈ [(1:ℚ)/4, 3/4, 3/4], x ≤ 3/4) ∧
    (0:ℚ) < 3/4 ∧
    bestClass [(1:ℚ)/4, 3/4, 3/4]
      = ((([(1:ℚ)/4, 3/4, 3/4].findIdx fun s => decide (s = 3/4) : ℕ) : ℤ), 3/4) ∧
    (∀ x ∈ [(0:ℚ)], x ≤ 0) ∧ bestClass [(0:ℚ)] = (-1, 0) := by
  have hm : (3:ℚ)/4 ∈ [(1:ℚ)/4, 3/4, 3/4] := by norm_num
  have hle : ∀ x ∈ [(1:ℚ)/4, 3/4, 3/4], x ≤ 3/4 := by
    intro x hx
    rcases List.mem_cons.mp hx with h | hx2
    · rw [h]; norm_num
    · rcases List.mem_cons.mp hx2 with h | hx3
      · rw [h]
      · rcases List.mem_cons.mp hx3 with h | hx4
        · rw [h]
        · cases hx4
  have hpos : (0:ℚ) < 3/4 := by norm_num
  have hz : ∀ x ∈ [(0:ℚ)], x ≤ 0 := by simp
  exact ⟨hm, hle, hpos, C8_ties_resolve_to_first_occurrence.1 _ _ hm hle hpos, hz,
    C8_ties_resolve_to_first_occurrence.2 _ hz⟩

/-- C9 counterexample: the suppressors DO mutate the caller's array.  In
app.js, `boxes.sort(...)` reorders the caller's array in place, so after
`nms` the caller's array differs from the original (unsorted) sequence; in
script.js, `sortedBoxes` aliases the caller's array and the
`while`/`shift`/`splice` loop drains it, so after `nonMaxSuppression` the
caller's array is empty. -/
theorem C9_counterexample :
    App.nmsCallerArrayAfter [⟨0, 0, 1, 1, 1/10, 0⟩, ⟨0, 0, 1, 1, 9/10, 1⟩]
        ≠ [⟨0, 0, 1, 1, 1/10, 0⟩, ⟨0, 0, 1, 1, 9/10, 1⟩] ∧
    Script.nonMaxSuppressionCallerArrayAfter [⟨0, 0, 1, 1, none, 9/10⟩]
        ≠ [⟨0, 0, 1, 1, none, 9/10⟩] := by
  constructor
  · have h : App.nmsCallerArrayAfter [⟨0, 0, 1, 1, 1/10, 0⟩, ⟨0, 0, 1, 1, 9/10, 1⟩]
        = [⟨0, 0, 1, 1, 9/10, 1⟩, ⟨0, 0, 1, 1, 1/10, 0⟩] := by
      norm_num [App.nmsCallerArrayAfter, List.insertionSort, List.orderedInsert,
        App.scoreDescA]
    rw [h]
    norm_num [App.ABox.mk.injEq]
  · simp [Script.nonMaxSuppressionCallerArrayAfter]

/-- C9 (amended): the suppressors return fresh result lists whose elements
are unmutated records of the input (every output detection is an input
detection, fields unchanged), but they mutate the caller's array: after
app.js `nms` the caller's array holds the input reordered (a permutation,
sorted by descending score), and after script.js `nonMaxSuppression` the
caller's array has been drained empty. -/
theorem C9_mutation_of_caller_array (boxes : List App.ABox) (thr : ℚ)
    (bs : List Script.SBox) (thr2 : ℚ) :
    (∀ b ∈ App.nms boxes thr, b ∈ boxes) ∧
    (App.nmsCallerArrayAfter boxes).Perm boxes ∧
    (∀ d ∈ Script.nonMaxSuppression bs thr2, d ∈ bs) ∧
    Script.nonMaxSuppressionCallerArrayAfter bs = [] :=
  ⟨fun _ hb => mem_of_mem_nms hb, List.perm_insertionSort _ _,
   fun _ hd => mem_of_mem_nonMaxSuppression hd, rfl⟩

/-- Witness for C9 (amended) at singleton inputs. -/
theorem C9_mutation_of_caller_array_witness :
    (⟨0, 0, 1, 1, 9/10, 0⟩ : App.ABox) ∈ App.nms [⟨0, 0, 1, 1, 9/10, 0⟩] (45/100) ∧
    (⟨0, 0, 1, 1, 9/10, 0⟩ : App.ABox) ∈ [(⟨0, 0, 1, 1, 9/10, 0⟩ : App.ABox)] ∧
    (App.nmsCallerArrayAfter [⟨0, 0, 1, 1, 9/10, 0⟩]).Perm
      [(⟨0, 0, 1, 1, 9/10, 0⟩ : App.ABox)] ∧
    (⟨0, 0, 1, 1, some "cat", 9/10⟩ : Script.SBox) ∈
      Script.nonMaxSuppression [⟨0, 0, 1, 1, some "cat", 9/10⟩] (1/2) ∧
    (⟨0, 0, 1, 1, some "cat", 9/10⟩ : Script.SBox)
      ∈ [(⟨0, 0, 1, 1, some "cat", 9/10⟩ : Script.SBox)] ∧
    Script.nonMaxSuppressionCallerArrayAfter
      [(⟨0, 0, 1, 1, some "cat", 9/10⟩ : Script.SBox)] = [] := by
  have ha : (⟨0, 0, 1, 1, 9/10, 0⟩ : App.ABox) ∈
      App.nms [⟨0, 0, 1, 1, 9/10, 0⟩] (45/100) := by
    norm_num [App.nms, List.insertionSort, List.orderedInsert, App.scoreDescA,
      nmsLoop, App.aBoxKeep, App.iou]
  have hsb : (⟨0, 0, 1, 1, some "cat", 9/10⟩ : Script.SBox) ∈
      Script.nonMaxSuppression [⟨0, 0, 1, 1, some "cat", 9/10⟩] (1/2) := by
    norm_num [Script.nonMaxSuppression, List.insertionSort, List.orderedInsert,
      Script.scoreDescS, nmsLoop]
  exact ⟨ha, (C9_mutation_of_caller_array [⟨0, 0, 1, 1, 9/10, 0⟩] (45/100)
      [⟨0, 0, 1, 1, some "cat", 9/10⟩] (1/2)).1 _ ha,
    (C9_mutation_of_caller_array [⟨0, 0, 1, 1, 9/10, 0⟩] (45/100)
      [⟨0, 0, 1, 1, some "cat", 9/10⟩] (1/2)).2.1,
    hsb, (C9_mutation_of_caller_array [⟨0, 0, 1, 1, 9/10, 0⟩] (45/100)
      [⟨0, 0, 1, 1, some "cat", 9/10⟩] (1/2)).2.2.1 _ hsb,
    (C9_mutation_of_caller_array [⟨0, 0, 1, 1, 9/10, 0⟩] (45/100)
      [⟨0, 0, 1, 1, some "cat", 9/10⟩] (1/2)).2.2.2⟩

/-- C10: a candidate row whose class scores are all nonpositive keeps the
sentinel `(-1, 0)` of the best-class search (so its score `0` fails the
strict threshold comparison and the row is rejected), and every detection the
app.js decoder emits has a nonnegative class index — the sentinel `-1` never
reaches the output. -/
theorem C10_class_index_nonneg :
    (∀ scores : List ℚ, (∀ x ∈ scores, x ≤ 0) → bestClass scores = (-1, 0)) ∧
    (∀ (originalWidth originalHeight : ℚ) (dims : List ℕ) (data : List ℚ)
        (b : App.ABox),
        b ∈ App.processAndDrawBoxes originalWidth originalHeight dims data →
          0 ≤ b.classId) := by
  constructor
  · exact fun _ h => bestClass_of_forall_nonpos h
  · intro originalWidth originalHeight dims data b hb
    simp only [App.processAndDrawBoxes] at hb
    obtain ⟨row, _, hrow⟩ := List.mem_filterMap.mp hb
    obtain ⟨hsc, hs2, hs1⟩ := aDecodeRow_some hrow
    rw [hs1]
    refine bestClass_idx_nonneg ?_
    rw [← hs2]
    linarith

/-- Witness for C10: an all-zero score row keeps the sentinel, and the
decoded detection of a concrete tensor has class index `0 ≥ 0`. -/
theorem C10_class_index_nonneg_witness :
    (∀ x ∈ [(0:ℚ), 0], x ≤ 0) ∧
    bestClass [(0:ℚ), 0] = (-1, 0) ∧
    (⟨270, 270, 370, 370, 9/10, 0⟩ : App.ABox) ∈
      App.processAndDrawBoxes 640 640 [1, 6, 1] [320, 320, 100, 100, 9/10, 1/10] ∧
    (0 : ℤ) ≤ (⟨270, 270, 370, 370, 9/10, 0⟩ : App.ABox).classId := by
  have hz : ∀ x ∈ [(0:ℚ), 0], x ≤ 0 := by simp
  have hmem : (⟨270, 270, 370, 370, 9/10, 0⟩ : App.ABox) ∈
      App.processAndDrawBoxes 640 640 [1, 6, 1] [320, 320, 100, 100, 9/10, 1/10] := by
    norm_num [App.processAndDrawBoxes, transpose, List.range_succ, App.decodeRow,
      bestClass, bestClassAux, modelWidth, modelHeight, List.filterMap_cons]
  exact ⟨hz, C10_class_index_nonneg.1 _ hz, hmem,
    C10_class_index_nonneg.2 _ _ _ _ _ hmem⟩
